import Mathlib

set_option maxRecDepth 10000

/-!
Shallow embedding of the email body conversion engine of the
`outlook-assistant` tool (package `mail`, file `formatting.go`, together
with the HTML-to-text reducer of `mail.go`).  Go strings are modelled as
`List Char` (sequences of Unicode code points); byte indices produced by
`strings.Index`/`strings.LastIndex` coincide with code-point indices for
the ASCII patterns searched here.  Fallible operations (Go slice
expressions that can panic) return `Option`; functions whose Go loops can
fail to terminate take an explicit fuel argument.
-/

/-- Named characters, so that delimiter characters that are awkward as
literals appear exactly once. -/
def chNl : Char := Char.ofNat 10

def tickCh : Char := Char.ofNat 96

def aposCh : Char := Char.ofNat 39

def quoteCh : Char := Char.ofNat 34

def lbrCh : Char := Char.ofNat 91

def rbrCh : Char := Char.ofNat 93

def lparCh : Char := Char.ofNat 40

def rparCh : Char := Char.ofNat 41

/-- Scanner for `strings.Index`: `i` is the index of the current suffix
in the original string. -/
def strIndexAux (pat : List Char) : Nat → List Char → Option Nat
  | i, s =>
    if pat.isPrefixOf s then some i
    else
      match s with
      | [] => none
      | _ :: t => strIndexAux pat (i + 1) t

/-- Model of Go `strings.Index` (first occurrence of `pat` in the list,
`none` when absent). -/
def strIndex (pat s : List Char) : Option Nat :=
  strIndexAux pat 0 s

/-- Model of Go `strings.LastIndex` (last occurrence of `pat`). -/
def strLastIndex (pat : List Char) : List Char → Option Nat
  | [] => if pat.isPrefixOf [] then some 0 else none
  | c :: t =>
    match strLastIndex pat t with
    | some q => some (q + 1)
    | none => if pat.isPrefixOf (c :: t) then some 0 else none

/-- Go slice expression `s[i:j]`: defined only when `i ≤ j ≤ len s`,
otherwise the Go program panics (modelled as `none`). -/
def goSlice (s : List Char) (i j : Nat) : Option (List Char) :=
  if i ≤ j ∧ j ≤ s.length then some ((s.take j).drop i) else none

/-- The ASCII fragment of Go `strings.ToLower` (the full Unicode case
table restricted to `A`–`Z`); the patterns searched case-insensitively by
the extractor are ASCII. -/
def toLowerChar (c : Char) : Char :=
  if 65 ≤ c.toNat ∧ c.toNat ≤ 90 then Char.ofNat (c.toNat + 32) else c

/-- Go `unicode.IsSpace` (the Unicode White_Space property). -/
def isSpaceGo (c : Char) : Bool :=
  let n := c.toNat
  n = 32 || (9 ≤ n && n ≤ 13) || n = 0x85 || n = 0xA0 || n = 0x1680 ||
    (0x2000 ≤ n && n ≤ 0x200A) || n = 0x2028 || n = 0x2029 || n = 0x202F ||
    n = 0x205F || n = 0x3000

/-- Go `strings.TrimSpace`. -/
def trimSpace (l : List Char) : List Char :=
  ((l.dropWhile isSpaceGo).reverse.dropWhile isSpaceGo).reverse

/-- Go `strings.TrimPrefix p` (drops one leading occurrence of `p` when
present). -/
def dropLead (p l : List Char) : List Char :=
  if p.isPrefixOf l then l.drop p.length else l

/-- Go `strings.TrimRight(l, " \t\r")`. -/
def trimRightCutset (l : List Char) : List Char :=
  (l.reverse.dropWhile (fun c => c = ' ' || c = '\t' || c = '\r')).reverse

/-- `emailCSS`: the base CSS injected into every outgoing email
(`formatting.go`), byte for byte. -/
def emailCSS : List Char :=
  ("\nbody \x7b\n  font-family: -apple-system, BlinkMacSystemFont, \"Segoe UI\", Roboto, Helvetica, Arial, sans-serif;\n  font-size: 14px;\n  line-height: 1.6;\n  color: #222;\n  margin: 0;\n  padding: 16px;\n\x7d\np  \x7b margin: 0 0 12px; \x7d\nh1 \x7b font-size: 1.5em;  font-weight: 600; margin: 16px 0 8px; \x7d\nh2 \x7b font-size: 1.3em;  font-weight: 600; margin: 14px 0 7px; \x7d\nh3 \x7b font-size: 1.1em;  font-weight: 600; margin: 12px 0 6px; \x7d\nh4, h5, h6 \x7b font-size: 1em; font-weight: 600; margin: 10px 0 5px; \x7d\nul, ol \x7b margin: 0 0 12px; padding-left: 24px; \x7d\nli \x7b margin-bottom: 4px; \x7d\ncode \x7b\n  font-family: \"SFMono-Regular\", Consolas, \"Liberation Mono\", Menlo, monospace;\n  background: #f4f4f4;\n  padding: 1px 4px;\n  border-radius: 3px;\n  font-size: 0.9em;\n\x7d\npre \x7b\n  background: #f4f4f4;\n  padding: 12px;\n  border-radius: 4px;\n  overflow-x: auto;\n  margin: 0 0 12px;\n\x7d\npre code \x7b background: none; padding: 0; \x7d\nblockquote \x7b\n  border-left: 3px solid #ccc;\n  margin: 0 0 12px;\n  padding-left: 12px;\n  color: #555;\n\x7d\nhr \x7b\n  border: none;\n  border-top: 1px solid #ddd;\n  margin: 16px 0;\n\x7d\na \x7b color: #0066cc; \x7d\nstrong \x7b font-weight: 600; \x7d\nem \x7b font-style: italic; \x7d\n").data

/-- The document text preceding the spliced fragment in `wrapEmailHTML`. -/
def docHead : List Char :=
  ("<!DOCTYPE html>\n<html>\n<head><meta charset=\"UTF-8\"><style>").data ++
    emailCSS ++ ("</style></head>\n<body>\n").data

/-- The document text following the spliced fragment in `wrapEmailHTML`. -/
def docTail : List Char := ("\n</body>\n</html>").data

/-- `wrapEmailHTML`: wraps inner HTML content in a full HTML document with
CSS. -/
def wrapEmailHTML (inner : List Char) : List Char :=
  docHead ++ inner ++ docTail

/-- `ExtractBodyContent`: extracts the inner content of the `<body>`
element from a full HTML document string; `none` models a Go slice-bounds
panic. -/
def ExtractBodyContent (s : List Char) : Option (List Char) :=
  let lower := s.map toLowerChar
  match strIndex (("<body").data) lower with
  | none => some s
  | some start =>
    match strIndex ((">").data) (s.drop start) with
    | none => some s
    | some e =>
      let bodyStart := start + e + 1
      match strLastIndex (("</body>").data) lower with
      | none => goSlice s bodyStart s.length
      | some closeTag => goSlice s bodyStart closeTag

/-- The body format selector (`BodyFormat` in `formatting.go`). -/
inductive BodyFormat
  | FormatText
  | FormatMarkdown
  | FormatHTML
deriving DecidableEq

/-- One escaped character of Go `html.EscapeString` (escapes the five
characters `&`, `'`, `<`, `>`, `"`). -/
def escapeChar (c : Char) : List Char :=
  if c = '&' then ("&amp;").data
  else if c = aposCh then ("&#39;").data
  else if c = '<' then ("&lt;").data
  else if c = '>' then ("&gt;").data
  else if c = quoteCh then ("&#34;").data
  else [c]

/-- Go `html.EscapeString` (all five replaced strings are single
characters, so the replacer is a character-wise map). -/
def escapeString (s : List Char) : List Char :=
  s.flatMap escapeChar

/-- Go `strings.ReplaceAll(s, "\n", "<br>\n")` (single-character pattern,
hence character-wise). -/
def brReplace (s : List Char) : List Char :=
  s.flatMap (fun c => if c = chNl then ("<br>\n").data else [c])

/-- Splitter for `regexp.MustCompile("\n{2,}").Split(s, -1)`: cuts the
input at every maximal run of two or more newlines.  The fuel is
initialised to the input length; every step consumes at least one
character, so it never runs out. -/
def splitParasF : Nat → List Char → List (List Char)
  | _, [] => [[]]
  | 0, s => [s]
  | fuel + 1, c :: rest =>
    if c = chNl then
      match rest with
      | c2 :: rest2 =>
        if c2 = chNl then [] :: splitParasF fuel (rest2.dropWhile (fun d => d = chNl))
        else
          match splitParasF fuel rest with
          | p :: ps => (c :: p) :: ps
          | [] => [[c]]
      | [] => [[c]]
    else
      match splitParasF fuel rest with
      | p :: ps => (c :: p) :: ps
      | [] => [[c]]

def splitParas (s : List Char) : List (List Char) :=
  splitParasF s.length s

/-- One paragraph of `textToHTMLFragment`: trim, drop when empty,
HTML-escape, turn inner newlines into `<br>`, wrap in `<p>`. -/
def paraPiece (para : List Char) : List Char :=
  let p := trimSpace para
  if p.isEmpty then []
  else ("<p>").data ++ brReplace (escapeString p) ++ ("</p>\n").data

/-- `textToHTMLFragment`: escapes plain text and converts newlines to
`<p>` tags. -/
def textToHTMLFragment (s : List Char) : List Char :=
  ((splitParas s).map paraPiece).flatten

/-- Scan to the first occurrence of `stop`; returns the characters before
it and the remainder after it (`[^x]+`-style content, newlines
allowed). -/
def scanTo (stop : Char) : List Char → Option (List Char × List Char)
  | [] => none
  | x :: rest =>
    if x = stop then some ([], rest)
    else (scanTo stop rest).map (fun pr => (x :: pr.1, pr.2))

/-- Scan to the first occurrence of `stop`, failing at a newline
(`(.+?)x`-style content: `.` does not match a newline). -/
def scanTo1 (stop : Char) : List Char → Option (List Char × List Char)
  | [] => none
  | x :: rest =>
    if x = stop then some ([], rest)
    else if x = chNl then none
    else (scanTo1 stop rest).map (fun pr => (x :: pr.1, pr.2))

/-- Close scan for a single-character delimiter with non-empty content:
the first content character may be any non-newline character, then
`scanTo1` finds the delimiter. -/
def scanTo1n (c : Char) : List Char → Option (List Char × List Char)
  | [] => none
  | z :: rest =>
    if z = chNl then none
    else (scanTo1 c rest).map (fun pr => (z :: pr.1, pr.2))

/-- Scan to the first adjacent pair `cc`, failing at a newline; content
may contain single `c` characters. -/
def scanTo2 (c : Char) : List Char → Option (List Char × List Char)
  | x :: y :: rest =>
    if x = c ∧ y = c then some ([], rest)
    else if x = chNl then none
    else (scanTo2 c (y :: rest)).map (fun pr => (x :: pr.1, pr.2))
  | _ => none

/-- Close scan for a doubled delimiter with non-empty content. -/
def scanTo2n (c : Char) : List Char → Option (List Char × List Char)
  | [] => none
  | z :: rest =>
    if z = chNl then none
    else (scanTo2 c rest).map (fun pr => (z :: pr.1, pr.2))

/-- The inline-code pass: leftmost non-overlapping matches of a
backtick-delimited span with non-empty content; the content is
HTML-escaped inside `<code>`.  Fuel is initialised to the input length
(each step consumes at least one input character). -/
def codePassF : Nat → List Char → List Char
  | _, [] => []
  | 0, s => s
  | fuel + 1, x :: rest =>
    if x = tickCh then
      match scanTo tickCh rest with
      | some (content, r) =>
        if content.isEmpty then x :: codePassF fuel rest
        else ("<code>").data ++ escapeString content ++ ("</code>").data ++ codePassF fuel r
      | none => x :: codePassF fuel rest
    else x :: codePassF fuel rest

def codePass (s : List Char) : List Char :=
  codePassF s.length s

/-- Replacement pass for a doubled delimiter (`**…**` or `__…__`),
leftmost-first with shortest (non-greedy) non-empty newline-free
content, substituted unescaped between `openT` and `closeT`. -/
def replaceDoubleF (c : Char) (openT closeT : List Char) : Nat → List Char → List Char
  | _, [] => []
  | _, [x] => [x]
  | 0, s => s
  | fuel + 1, x :: y :: rest =>
    if x = c ∧ y = c then
      match scanTo2n c rest with
      | some (content, r) =>
        openT ++ content ++ closeT ++ replaceDoubleF c openT closeT fuel r
      | none => x :: replaceDoubleF c openT closeT fuel (y :: rest)
    else x :: replaceDoubleF c openT closeT fuel (y :: rest)

def replaceDouble (c : Char) (openT closeT s : List Char) : List Char :=
  replaceDoubleF c openT closeT s.length s

/-- Replacement pass for a single delimiter (`*…*` or `_…_`). -/
def replaceSingleF (c : Char) (openT closeT : List Char) : Nat → List Char → List Char
  | _, [] => []
  | 0, s => s
  | fuel + 1, x :: rest =>
    if x = c then
      match scanTo1n c rest with
      | some (content, r) =>
        openT ++ content ++ closeT ++ replaceSingleF c openT closeT fuel r
      | none => x :: replaceSingleF c openT closeT fuel rest
    else x :: replaceSingleF c openT closeT fuel rest

def replaceSingle (c : Char) (openT closeT s : List Char) : List Char :=
  replaceSingleF c openT closeT s.length s

/-- The link pass: `[text](url)` with non-empty bracket-free text and
non-empty parenthesis-free url becomes an anchor, neither part escaped
further. -/
def linkPassF : Nat → List Char → List Char
  | _, [] => []
  | 0, s => s
  | fuel + 1, x :: rest =>
    if x = lbrCh then
      match scanTo rbrCh rest with
      | some (text, r1) =>
        if text.isEmpty then x :: linkPassF fuel rest
        else
          match r1 with
          | lp :: r2 =>
            if lp = lparCh then
              match scanTo rparCh r2 with
              | some (url, r3) =>
                if url.isEmpty then x :: linkPassF fuel rest
                else ("<a href=\"").data ++ url ++ ("\">").data ++ text ++
                  ("</a>").data ++ linkPassF fuel r3
              | none => x :: linkPassF fuel rest
            else x :: linkPassF fuel rest
          | [] => x :: linkPassF fuel rest
      | none => x :: linkPassF fuel rest
    else x :: linkPassF fuel rest

def linkPass (s : List Char) : List Char :=
  linkPassF s.length s

/-- `renderInline`: the regex cascade of `formatting.go`, in source
order: inline code, bold (`**`, `__`), italic (`*`, `_`), links. -/
def renderInline (s : List Char) : List Char :=
  let s1 := codePass s
  let s2 := replaceDouble '*' (("<strong>").data) (("</strong>").data) s1
  let s3 := replaceDouble '_' (("<strong>").data) (("</strong>").data) s2
  let s4 := replaceSingle '*' (("<em>").data) (("</em>").data) s3
  let s5 := replaceSingle '_' (("<em>").data) (("</em>").data) s4
  linkPass s5

/-- Go `strings.Split(src, "\n")` (always returns one more piece than
separators). -/
def splitNlGo : List Char → List (List Char)
  | [] => [[]]
  | c :: rest =>
    if c = chNl then [] :: splitNlGo rest
    else
      match splitNlGo rest with
      | p :: ps => (c :: p) :: ps
      | [] => [[c]]

/-- `isUnorderedItem`: Go regex `^[-*+] `. -/
def isUnorderedItem (l : List Char) : Bool :=
  match l with
  | m :: sp :: _ => (m = '-' || m = '*' || m = '+') && sp = ' '
  | _ => false

/-- `isOrderedItem`: Go regex `^\d+\. ` (ASCII digits). -/
def isOrderedItem (l : List Char) : Bool :=
  let ds := l.takeWhile Char.isDigit
  !ds.isEmpty && (". ").data.isPrefixOf (l.drop ds.length)

/-- The blockquote-start test of `markdownToHTML`:
`strings.HasPrefix(line, "> ") || line == ">"`. -/
def bqLine (l : List Char) : Bool :=
  ("> ").data.isPrefixOf l || l = (">").data

/-- Marker stripping for one blockquote line:
`strings.TrimPrefix(strings.TrimPrefix(l, ">"), " ")`. -/
def bqStrip (l : List Char) : List Char :=
  dropLead ((" ").data) (dropLead ((">").data) l)

/-- The blockquote source rebuilt by the run loop: each stripped line
followed by a newline. -/
def bqJoin (ls : List (List Char)) : List Char :=
  (ls.map (fun l => bqStrip l ++ [chNl])).flatten

/-- The source string whose logical lines are exactly `ls` (lines joined
by single newlines, no trailing newline). -/
def joinNl : List (List Char) → List Char
  | [] => []
  | [x] => x
  | x :: xs => x ++ chNl :: joinNl xs

/-- The number of leading `#` characters of a line. -/
def hLevel (l : List Char) : Nat :=
  (l.takeWhile (fun c => c = '#')).length

/-- The heading acceptance test of `markdownToHTML`:
`level <= 6 && (len(line) == level || line[level] == ' ')`. -/
def headingOk (l : List Char) : Bool :=
  hLevel l ≤ 6 && (l.length = hLevel l || l.get? (hLevel l) = some ' ')

/-- ASCII digit character for a heading level (`fmt.Sprintf("h%d")`). -/
def digitChar (n : Nat) : Char := Char.ofNat (48 + n)

/-- The paragraph-loop break test of `markdownToHTML` (note: it checks
`"> "` but not a bare `">"`, and `---`/`***` but not `___`). -/
def paraBreak (l : List Char) : Bool :=
  (trimSpace l).isEmpty || ("#").data.isPrefixOf l || ("```").data.isPrefixOf l ||
    ("> ").data.isPrefixOf l || isUnorderedItem l || isOrderedItem l ||
    trimSpace l = ("---").data || trimSpace l = ("***").data

/-- The `<li>` elements of an unordered-list run. -/
def ulItems (items : List (List Char)) : List Char :=
  (items.map (fun l =>
    ("<li>").data ++ renderInline (trimSpace (l.drop 2)) ++ ("</li>\n").data)).flatten

/-- The `<li>` elements of an ordered-list run (the matched
`digits. ` marker is removed). -/
def olItems (items : List (List Char)) : List Char :=
  (items.map (fun l =>
    ("<li>").data ++
      renderInline (trimSpace (l.drop ((l.takeWhile Char.isDigit).length + 2))) ++
      ("</li>\n").data)).flatten

/-- The escaped body of a fenced code block: every collected line
HTML-escaped and newline-terminated. -/
def fenceBody (ls : List (List Char)) : List Char :=
  (ls.map (fun l => escapeString l ++ [chNl])).flatten

/-- The opening tag of a fenced code block, with optional language
class. -/
def fenceOpen (lang : List Char) : List Char :=
  if lang.isEmpty then ("<pre><code>").data
  else ("<pre><code class=\"language-").data ++ escapeString lang ++ ("\">").data

/-- The line loop of `markdownToHTML`.  One unit of fuel is spent per
iteration of Go's outer `for i < len(lines)` loop; the recursive
blockquote rendering runs on the remaining fuel.  Go's loop does not
always advance `i` (see the paragraph branch, which consumes no line
when the paragraph is empty), so no fuel bound in the input size exists:
`none` means the Go program has not terminated within `fuel`
iterations. -/
def mdLoop : Nat → List (List Char) → Option (List Char)
  | _, [] => some []
  | 0, _ :: _ => none
  | fuel + 1, line :: rest =>
    if ("```").data.isPrefixOf line then
      let lang := trimSpace (line.drop 3)
      let codeLines := rest.takeWhile (fun l => !(("```").data.isPrefixOf l))
      let rest2 := (rest.dropWhile (fun l => !(("```").data.isPrefixOf l))).drop 1
      (mdLoop fuel rest2).map (fun out =>
        fenceOpen lang ++ fenceBody codeLines ++ ("</code></pre>\n").data ++ out)
    else if bqLine line then
      let run := (line :: rest).takeWhile bqLine
      let rest2 := (line :: rest).dropWhile bqLine
      match mdLoop fuel (splitNlGo (bqJoin run)), mdLoop fuel rest2 with
      | some inner, some out =>
        some (("<blockquote>\n").data ++ inner ++ ("</blockquote>\n").data ++ out)
      | _, _ => none
    else if trimSpace line = ("---").data || trimSpace line = ("***").data ||
        trimSpace line = ("___").data then
      (mdLoop fuel rest).map (fun out => ("<hr>\n").data ++ out)
    else if ("#").data.isPrefixOf line && headingOk line then
      let level := hLevel line
      (mdLoop fuel rest).map (fun out =>
        ("<h").data ++ [digitChar level] ++ (">").data ++
          renderInline (trimSpace (line.drop level)) ++
          ("</h").data ++ [digitChar level] ++ (">").data ++ [chNl] ++ out)
    else if isUnorderedItem line then
      let items := (line :: rest).takeWhile isUnorderedItem
      let rest2 := (line :: rest).dropWhile isUnorderedItem
      (mdLoop fuel rest2).map (fun out =>
        ("<ul>\n").data ++ ulItems items ++ ("</ul>\n").data ++ out)
    else if isOrderedItem line then
      let items := (line :: rest).takeWhile isOrderedItem
      let rest2 := (line :: rest).dropWhile isOrderedItem
      (mdLoop fuel rest2).map (fun out =>
        ("<ol>\n").data ++ olItems items ++ ("</ol>\n").data ++ out)
    else if (trimSpace line).isEmpty then
      mdLoop fuel rest
    else
      let paraLines := (line :: rest).takeWhile (fun l => !paraBreak l)
      let rest2 := (line :: rest).dropWhile (fun l => !paraBreak l)
      if paraLines.isEmpty then mdLoop fuel (line :: rest)
      else
        (mdLoop fuel rest2).map (fun out =>
          ("<p>").data ++
            renderInline (List.intercalate (("<br>\n").data) (paraLines.map trimSpace)) ++
            ("</p>\n").data ++ out)

/-- `markdownToHTML`: the minimal Markdown renderer of `formatting.go`,
with explicit fuel for the line loop. -/
def markdownToHTML (fuel : Nat) (src : List Char) : Option (List Char) :=
  mdLoop fuel (splitNlGo src)

/-- `RenderBodyInner`: body string to HTML fragment. -/
def RenderBodyInner (fuel : Nat) (body : List Char) : BodyFormat → Option (List Char)
  | BodyFormat.FormatHTML => some body
  | BodyFormat.FormatMarkdown => markdownToHTML fuel body
  | BodyFormat.FormatText => some (textToHTMLFragment body)

/-- `RenderBody`: body string to complete HTML email document. -/
def RenderBody (fuel : Nat) (body : List Char) (format : BodyFormat) : Option (List Char) :=
  (RenderBodyInner fuel body format).map wrapEmailHTML

/-- The tag-stripping scan of `stripHTML`: `<` enters a tag, `>` leaves
it, characters outside a tag are emitted — note that `<` and `>`
themselves are never emitted. -/
def tagStripAux : Bool → List Char → List Char
  | _, [] => []
  | inTag, c :: rest =>
    if c = '<' then tagStripAux true rest
    else if c = '>' then tagStripAux false rest
    else if inTag then tagStripAux inTag rest
    else c :: tagStripAux inTag rest

/-- The fixed entity table of `stripHTML`
(`strings.NewReplacer` argument order; no pattern is a prefix of
another, so at most one pattern matches at a position). -/
def entityTable : List (List Char × List Char) :=
  [(("&nbsp;").data, (" ").data),
   (("&amp;").data, ("&").data),
   (("&lt;").data, ("<").data),
   (("&gt;").data, (">").data),
   (("&quot;").data, [quoteCh]),
   (("&#39;").data, [aposCh]),
   (("&apos;").data, [aposCh]),
   (("&mdash;").data, ("—").data),
   (("&ndash;").data, ("–").data),
   (("&hellip;").data, ("…").data),
   (("&laquo;").data, ("«").data),
   (("&raquo;").data, ("»").data),
   (("&#160;").data, (" ").data),
   (("&#8203;").data, [])]

/-- First entry of the table whose pattern is a prefix of `s`; returns
the replacement and the remainder of `s`. -/
def matchEntity : List (List Char × List Char) → List Char → Option (List Char × List Char)
  | [], _ => none
  | (p, r) :: tbl, s =>
    if p.isPrefixOf s then some (r, s.drop p.length) else matchEntity tbl s

/-- The entity-decoding replacer of `stripHTML` (left-to-right,
non-overlapping, replacements not rescanned).  Fuel is initialised to
the input length; each step consumes at least one character. -/
def entityReplaceF : Nat → List Char → List Char
  | _, [] => []
  | 0, s => s
  | fuel + 1, c :: rest =>
    match matchEntity entityTable (c :: rest) with
    | some (r, s2) => r ++ entityReplaceF fuel s2
    | none => c :: entityReplaceF fuel rest

def entityReplace (s : List Char) : List Char :=
  entityReplaceF s.length s

/-- The invisible code points removed by `stripInvisibleUnicode`. -/
def isInvisibleChar (c : Char) : Bool :=
  let n := c.toNat
  n = 0x200b || n = 0x200c || n = 0x200d || n = 0x200e || n = 0x200f ||
    n = 0x034f || n = 0xfeff || n = 0x00ad

/-- `stripInvisibleUnicode`. -/
def stripInvisibleUnicode (s : List Char) : List Char :=
  s.filter (fun c => !isInvisibleChar c)

/-- `collapseSpaces`: runs of spaces/tabs become one space. -/
def collapseSpacesAux : Bool → List Char → List Char
  | _, [] => []
  | prevSpace, c :: rest =>
    if c = ' ' || c = '\t' then
      if prevSpace then collapseSpacesAux true rest
      else ' ' :: collapseSpacesAux true rest
    else c :: collapseSpacesAux false rest

def collapseSpaces (s : List Char) : List Char :=
  collapseSpacesAux false s

/-- The blank-line-collapsing loop of `stripHTML` (`blanks` counts the
current run of blank lines; at most one blank line of a run is kept). -/
def cleanLines : Nat → List (List Char) → List (List Char)
  | _, [] => []
  | blanks, l :: ls =>
    let l2 := collapseSpaces (trimRightCutset l)
    if l2.isEmpty then
      if blanks + 1 ≤ 1 then l2 :: cleanLines (blanks + 1) ls
      else cleanLines (blanks + 1) ls
    else l2 :: cleanLines 0 ls

/-- `stripHTML`: removes HTML tags and decodes common entities for
plain-text rendering (`mail.go`). -/
def stripHTML (s : List Char) : List Char :=
  let text := tagStripAux false s
  let text2 := entityReplace text
  let text3 := stripInvisibleUnicode text2
  trimSpace (List.intercalate [chNl] (cleanLines 0 (splitNlGo text3)))

/-- Substring test (via `strIndex`). -/
def containsSub (pat s : List Char) : Bool :=
  (strIndex pat s).isSome

/-- State of the escaping-safety automaton for the Plain-Text Fragment
Renderer's output: `normal` between tokens, `pending alts` inside a
token whose remaining spellings are `alts`, `fail` on a violation. -/
inductive EscState
  | fail
  | normal
  | pending (alts : List (List Char))
deriving DecidableEq

/-- One character step of the escaping-safety automaton.  In `normal`
state a `<` must begin `<p>`, `</p>` or `<br>`, an `&` must begin one of
the five entities produced by `escapeChar`, and a bare `>` is a
violation; all other characters are plain text. -/
def escStep : EscState → Char → EscState
  | EscState.fail, _ => EscState.fail
  | EscState.normal, c =>
    if c = '<' then EscState.pending [("p>").data, ("/p>").data, ("br>").data]
    else if c = '&' then
      EscState.pending
        [("amp;").data, ("lt;").data, ("gt;").data, ("#39;").data, ("#34;").data]
    else if c = '>' then EscState.fail
    else EscState.normal
  | EscState.pending alts, c =>
    let alts2 := (alts.filter (fun a => a.head? = some c)).map List.tail
    if alts2.isEmpty then EscState.fail
    else if alts2.contains [] then EscState.normal
    else EscState.pending alts2

/-- A string is escaping-safe when the automaton accepts it: every `<`,
`>` and `&` occurs only as part of the fixed markup `<p>`, `</p>`,
`<br>` or of a complete entity. -/
def escCheck (s : List Char) : Bool :=
  s.foldl escStep EscState.normal = EscState.normal

/-- The plain text obtained by reducing the rendered two-paragraph
document `RenderBody "hi\n\nthere" FormatText`: the whitespace-normalized
stylesheet text, a blank line, then the two paragraphs. -/
def c5Expected : List Char :=
  ("body \x7b\n font-family: -apple-system, BlinkMacSystemFont, \"Segoe UI\", Roboto, Helvetica, Arial, sans-serif;\n font-size: 14px;\n line-height: 1.6;\n color: #222;\n margin: 0;\n padding: 16px;\n\x7d\np \x7b margin: 0 0 12px; \x7d\nh1 \x7b font-size: 1.5em; font-weight: 600; margin: 16px 0 8px; \x7d\nh2 \x7b font-size: 1.3em; font-weight: 600; margin: 14px 0 7px; \x7d\nh3 \x7b font-size: 1.1em; font-weight: 600; margin: 12px 0 6px; \x7d\nh4, h5, h6 \x7b font-size: 1em; font-weight: 600; margin: 10px 0 5px; \x7d\nul, ol \x7b margin: 0 0 12px; padding-left: 24px; \x7d\nli \x7b margin-bottom: 4px; \x7d\ncode \x7b\n font-family: \"SFMono-Regular\", Consolas, \"Liberation Mono\", Menlo, monospace;\n background: #f4f4f4;\n padding: 1px 4px;\n border-radius: 3px;\n font-size: 0.9em;\n\x7d\npre \x7b\n background: #f4f4f4;\n padding: 12px;\n border-radius: 4px;\n overflow-x: auto;\n margin: 0 0 12px;\n\x7d\npre code \x7b background: none; padding: 0; \x7d\nblockquote \x7b\n border-left: 3px solid #ccc;\n margin: 0 0 12px;\n padding-left: 12px;\n color: #555;\n\x7d\nhr \x7b\n border: none;\n border-top: 1px solid #ddd;\n margin: 16px 0;\n\x7d\na \x7b color: #0066cc; \x7d\nstrong \x7b font-weight: 600; \x7d\nem \x7b font-style: italic; \x7d\n\nhi\nthere").data

/-! ### Shared helper lemmas -/

/-- On the single line `#Heading` the heading test rejects the line (no
space after `#`) and the paragraph loop breaks immediately on the `#`
prefix without consuming it, so one iteration of the Go line loop leaves
the state unchanged: the loop never terminates, whatever the fuel. -/
theorem mdHashHeading_none : ∀ fuel : Nat, markdownToHTML fuel (("#Heading").data) = none := by
  intro fuel
  induction fuel with
  | zero => rfl
  | succ n ih => exact ih

/-! ### Claim theorems -/

/-- Claim C2 (code_bug evaluation): on input `"</body><body>"` the first
case-insensitive `<body` is at index 7, the `>` after it puts
`bodyStart = 13`, and the last `</body>` is at index 0, so the Go slice
`s[13:0]` panics (modelled by `none`): `ExtractBodyContent` is not
total. -/
theorem extract_body_panics_on_reversed_tags :
    ExtractBodyContent (("</body><body>").data) = none := by decide

/-- Claim C4 (code_bug evaluation): the bold pass rewrites the
double-asterisk pair inside the `<code>` span already produced by the
inline-code pass, so `` `**not bold**` `` renders as
`<code><strong>not bold</strong></code>` and not as the protected
`<code>**not bold**</code>`. -/
theorem renderInline_bold_rewrites_code_span :
    renderInline (("`**not bold**`").data) =
        (("<code><strong>not bold</strong></code>").data) ∧
      renderInline (("`**not bold**`").data) ≠ (("<code>**not bold**</code>").data) := by
  exact ⟨by rfl, by decide⟩

/-- Claim C3 (code_bug evaluation): the Block Renderer does not terminate
on `"#Heading"` — for every fuel the line loop fails to finish, because
the paragraph-accumulation loop breaks on the `#` prefix without
consuming the line while the heading recognition has already rejected
it. -/
theorem markdown_diverges_on_malformed_heading :
    ∀ fuel : Nat, markdownToHTML fuel (("#Heading").data) = none :=
  mdHashHeading_none

/-- Claim C8 (code_bug evaluation): `"#Heading"` indeed emits no heading
element, but it is not handled as a paragraph either — the renderer
diverges; `"# Heading"` emits exactly `<h1>Heading</h1>` followed by the
block newline. -/
theorem heading_boundary_eval :
    (∀ fuel : Nat, markdownToHTML fuel (("#Heading").data) = none) ∧
      markdownToHTML 1 (("# Heading").data) = some (("<h1>Heading</h1>\n").data) := by
  exact ⟨mdHashHeading_none, by rfl⟩

/-- Claim C7 (counterexample): the single line `">text"` — a `>` marker
with no following space — is not rendered as a blockquote but as the
paragraph `<p>>text</p>`. -/
theorem blockquote_requires_space_counterexample :
    markdownToHTML 1 ((">text").data) = some (("<p>>text</p>\n").data) ∧
      markdownToHTML 1 ((">text").data) ≠
        some (("<blockquote>\n<p>text</p>\n</blockquote>\n").data) := by
  exact ⟨by rfl, by decide⟩

/-- Claim C6 (counterexample): on `"a > b"`, which contains a literal `>`
outside any tag, the tag-stripping pass emits `"a  b"` — the `>` does
not appear in the stripped output, contrary to the claim. -/
theorem tagstrip_drops_gt_outside_tag :
    tagStripAux false (("a > b").data) = (("a  b").data) ∧
      ('>' ∈ tagStripAux false (("a > b").data) → False) := by
  exact ⟨by rfl, by decide⟩

/-- Claim C1 (counterexample): extracting the body of the wrapped
fragment `"x"` does not return `"x"` — the wrapper's newlines around the
fragment are kept by the extractor. -/
theorem extract_wrap_not_identity :
    ExtractBodyContent (wrapEmailHTML (("x").data)) ≠ some (("x").data) :=
  ne_of_beq_false (by rfl)

/-- Claim C5 (counterexample): reducing the rendered plain-text document
for `"hi"` does not recover `"hi"`; the embedded stylesheet text survives
tag stripping, so the reduced output contains the stylesheet's
`font-family` text. -/
theorem strip_render_roundtrip_fails :
    (RenderBody 1 (("hi").data) BodyFormat.FormatText).map stripHTML ≠
        some (("hi").data) ∧
      (RenderBody 1 (("hi").data) BodyFormat.FormatText).map
        (fun d => containsSub (("font-family").data) (stripHTML d)) = some true := by
  exact ⟨ne_of_beq_false (by rfl), eq_of_beq (by rfl)⟩

/-- Claim C5 (amended, concrete): for the two-paragraph input
`"hi\n\nthere"` the reduction of the rendered document is exactly the
whitespace-normalized stylesheet text followed by a blank line and the
recovered paragraphs — the stylesheet text appears at the head of the
output, before the recovered text. -/
theorem strip_render_includes_stylesheet :
    (RenderBody 1 (("hi\n\nthere").data) BodyFormat.FormatText).map stripHTML =
      some c5Expected :=
  eq_of_beq (by rfl)

/-- A character that is none of the five escaped characters passes
through `escapeChar` unchanged. -/
theorem escapeChar_other (c : Char) (h1 : c ≠ '&') (h2 : c ≠ aposCh) (h3 : c ≠ '<')
    (h4 : c ≠ '>') (h5 : c ≠ quoteCh) : escapeChar c = [c] := by
  simp [escapeChar, h1, h2, h3, h4, h5]

/-- A non-newline character passes through `brReplace` unchanged. -/
theorem brReplace_single (c : Char) (h : c ≠ chNl) : brReplace [c] = [c] := by
  simp [brReplace, h]

/-- A plain character keeps the automaton in the `normal` state. -/
theorem escStep_normal_other (c : Char) (h1 : c ≠ '<') (h2 : c ≠ '&') (h3 : c ≠ '>') :
    escStep EscState.normal c = EscState.normal := by
  simp [escStep, h1, h2, h3]

/-- The automaton accepts the `<br>`-and-escape image of one character:
an escaped character contributes a complete entity, a newline contributes
the complete `<br>` markup, and every other character is plain. -/
theorem escFold_char (c : Char) :
    (brReplace (escapeChar c)).foldl escStep EscState.normal = EscState.normal := by
  by_cases h1 : c = '&'
  · subst h1; rfl
  by_cases h2 : c = aposCh
  · subst h2; rfl
  by_cases h3 : c = '<'
  · subst h3; rfl
  by_cases h4 : c = '>'
  · subst h4; rfl
  by_cases h5 : c = quoteCh
  · subst h5; rfl
  by_cases h6 : c = chNl
  · subst h6; rfl
  · rw [escapeChar_other c h1 h2 h3 h4 h5, brReplace_single c h6]
    exact escStep_normal_other c h3 h1 h4

/-- Folding the automaton over the `<br>`-and-escape image of any
paragraph returns it to the `normal` state. -/
theorem escFold_body (q : List Char) :
    (brReplace (escapeString q)).foldl escStep EscState.normal = EscState.normal := by
  induction q with
  | nil => rfl
  | cons c q ih =>
    have step : brReplace (escapeString (c :: q)) =
        brReplace (escapeChar c) ++ brReplace (escapeString q) := by
      simp [escapeString, brReplace]
    rw [step, List.foldl_append, escFold_char c]
    exact ih

/-- The automaton accepts every rendered paragraph piece. -/
theorem escFold_piece (para : List Char) :
    (paraPiece para).foldl escStep EscState.normal = EscState.normal := by
  by_cases he : (trimSpace para).isEmpty
  · simp [paraPiece, he]
  · have hp : paraPiece para =
        ("<p>").data ++ brReplace (escapeString (trimSpace para)) ++ ("</p>\n").data := by
      simp [paraPiece, he]
    rw [hp, List.foldl_append, List.foldl_append]
    have h1 : (("<p>").data).foldl escStep EscState.normal = EscState.normal := rfl
    rw [h1, escFold_body]
    rfl

/-- Claim C9: for every plain-text input the Plain-Text Fragment
Renderer's output is escaping-safe: each `<`, `>` and `&` of the output
occurs only inside the inserted `<p>`, `</p>`, `<br>` markup or inside a
complete entity produced by the escaper. -/
theorem textToHTMLFragment_escapes (s : List Char) : escCheck (textToHTMLFragment s) = true := by
  have main : ∀ ps : List (List Char),
      ((ps.map paraPiece).flatten).foldl escStep EscState.normal = EscState.normal := by
    intro ps
    induction ps with
    | nil => rfl
    | cons p ps ih =>
      rw [List.map_cons, List.flatten_cons, List.foldl_append, escFold_piece]
      exact ih
  simpa [escCheck, textToHTMLFragment] using main (splitParas s)

/-- Inside a tag span every character before the closing `>` (including
further `<` characters, which merely re-set the flag) emits nothing, and
the `>` returns the scan to the outside state. -/
theorem tagStrip_inTag_closes (tag rest : List Char) (h : '>' ∉ tag) :
    tagStripAux true (tag ++ '>' :: rest) = tagStripAux false rest := by
  induction tag with
  | nil => rfl
  | cons d tag ih =>
    have hd : d ≠ '>' := fun hc => h (hc ▸ List.mem_cons_self d tag)
    have htag : '>' ∉ tag := fun hm => h (List.mem_cons_of_mem d hm)
    rw [List.cons_append]
    by_cases hlt : d = '<'
    · subst hlt
      simp only [tagStripAux, if_pos rfl]
      exact ih htag
    · simp only [tagStripAux, if_neg hlt, if_neg hd, if_pos rfl]
      exact ih htag

/-- Claim C6 (amended): the tag-stripping pass never emits `<` or `>`;
any run of characters other than the two angle brackets that the scan
meets outside a span is emitted as-is, whatever follows it (including
further `<...>` spans); and a complete `<...>` span — `<`, a body free of
`>`, then `>` — emits nothing and returns the scan to the outside state.
Together with `tagstrip_drops_gt_outside_tag` (a `>` outside a span only
resets the flag and is dropped), this characterises the pass on
arbitrary inputs. -/
theorem tagstrip_amended :
    (∀ (b : Bool) (s : List Char), ∀ c ∈ tagStripAux b s, c ≠ '<' ∧ c ≠ '>') ∧
      (∀ pre rest : List Char, (∀ c ∈ pre, c ≠ '<' ∧ c ≠ '>') →
        tagStripAux false (pre ++ rest) = pre ++ tagStripAux false rest) ∧
      (∀ tag rest : List Char, '>' ∉ tag →
        tagStripAux false ('<' :: (tag ++ '>' :: rest)) = tagStripAux false rest) := by
  refine ⟨?_, ?_, ?_⟩
  · intro b s
    induction s generalizing b with
    | nil => intro c hc; simp [tagStripAux] at hc
    | cons d rest ih =>
      intro c hc
      simp only [tagStripAux] at hc
      split_ifs at hc with h1 h2 h3
      · exact ih _ c hc
      · exact ih _ c hc
      · exact ih _ c hc
      · rcases List.mem_cons.mp hc with hcd | hm
        · subst hcd; exact ⟨h1, h2⟩
        · exact ih _ c hm
  · intro pre
    induction pre with
    | nil => intro rest _; rfl
    | cons d pre ih =>
      intro rest h
      have hd := h d (List.mem_cons_self d pre)
      have hpre : ∀ c ∈ pre, c ≠ '<' ∧ c ≠ '>' := fun c hc => h c (List.mem_cons_of_mem d hc)
      rw [List.cons_append]
      simp only [tagStripAux, if_neg hd.1, if_neg hd.2, Bool.false_eq_true, if_false]
      simp [ih rest hpre]
  · intro tag rest h
    simp only [tagStripAux, if_pos rfl]
    exact tagStrip_inTag_closes tag rest h

/-- Witness for `tagstrip_amended` on the span-containing input
`"a<b>c"`: the text before the span is emitted as-is, the span `<b>`
emits nothing, and the text after it is emitted as-is. -/
theorem tagstrip_amended_witness :
    tagStripAux false (("a<b>c").data) = (("ac").data) := by
  have h1 : tagStripAux false ((("a").data) ++ (("<b>c").data)) =
      (("a").data) ++ tagStripAux false (("<b>c").data) :=
    tagstrip_amended.2.1 (("a").data) (("<b>c").data) (by decide)
  have h2 : tagStripAux false (("<b>c").data) = tagStripAux false (("c").data) :=
    tagstrip_amended.2.2 (("b").data) (("c").data) (by decide)
  calc tagStripAux false (("a<b>c").data)
      = (("a").data) ++ tagStripAux false (("<b>c").data) := h1
    _ = (("a").data) ++ tagStripAux false (("c").data) := by rw [h2]
    _ = (("ac").data) := by decide

/-- Claim C10: when the lowered input contains `<body` first at `start`
but no `>` occurs at or after `start`, `ExtractBodyContent` returns the
input unchanged — the unterminated opening tag is treated like the
no-body-tag case. -/
theorem extract_unterminated_open_tag (s : List Char) (start : Nat)
    (h1 : strIndex (("<body").data) (s.map toLowerChar) = some start)
    (h2 : strIndex ((">").data) (s.drop start) = none) :
    ExtractBodyContent s = some s := by
  simp [ExtractBodyContent, h1, h2]

/-- Witness for `extract_unterminated_open_tag` at the input `"<body"`
(opening tag, no closing `>`). -/
theorem extract_unterminated_open_tag_witness :
    ExtractBodyContent (("<body").data) = some (("<body").data) :=
  extract_unterminated_open_tag (("<body").data) 0 (by decide) (by decide)

/-- A newline-free string is a single logical line. -/
theorem splitNlGo_single (x : List Char) (h : chNl ∉ x) : splitNlGo x = [x] := by
  induction x with
  | nil => rfl
  | cons c rest ih =>
    have hc : c ≠ chNl := fun hc => h (hc ▸ List.mem_cons_self c rest)
    have hrest : chNl ∉ rest := fun hm => h (List.mem_cons_of_mem c hm)
    simp only [splitNlGo, if_neg hc, ih hrest]

/-- Splitting after the first newline peels off the first line. -/
theorem splitNlGo_cons_line (x rest : List Char) (h : chNl ∉ x) :
    splitNlGo (x ++ chNl :: rest) = x :: splitNlGo rest := by
  induction x with
  | nil => simp [splitNlGo]
  | cons c x2 ih =>
    have hc : c ≠ chNl := fun hc => h (hc ▸ List.mem_cons_self c x2)
    have hx2 : chNl ∉ x2 := fun hm => h (List.mem_cons_of_mem c hm)
    rw [List.cons_append, splitNlGo, if_neg hc, ih hx2]

/-- `splitNlGo` inverts `joinNl` on non-empty lists of newline-free
lines. -/
theorem splitNlGo_joinNl (ls : List (List Char)) (hne : ls ≠ [])
    (h : ∀ l ∈ ls, chNl ∉ l) : splitNlGo (joinNl ls) = ls := by
  induction ls with
  | nil => exact absurd rfl hne
  | cons x xs ih =>
    cases xs with
    | nil => exact splitNlGo_single x (h x (List.mem_cons_self x []))
    | cons y ys =>
      have hx : chNl ∉ x := h x (List.mem_cons_self x (y :: ys))
      have hrest : ∀ l ∈ y :: ys, chNl ∉ l := fun l hl => h l (List.mem_cons_of_mem x hl)
      show splitNlGo (x ++ chNl :: joinNl (y :: ys)) = x :: y :: ys
      rw [splitNlGo_cons_line x (joinNl (y :: ys)) hx, ih (by simp) hrest]

/-- A blockquote line never begins a fenced code block. -/
theorem bqLine_not_fence (l : List Char) (h : bqLine l = true) :
    (("```").data.isPrefixOf l) = false := by
  cases l with
  | nil => simp [bqLine] at h
  | cons c t =>
    have hc : c = '>' := by
      simp [bqLine, List.isPrefixOf] at h
      rcases h with h | h
      · exact h.1.symm
      · exact h.1
    subst hc
    simp [List.isPrefixOf]

/-- Lists all of whose elements satisfy `p` are their own `takeWhile`. -/
theorem takeWhile_all (p : List Char → Bool) (xs : List (List Char))
    (h : ∀ x ∈ xs, p x = true) : xs.takeWhile p = xs := by
  induction xs with
  | nil => rfl
  | cons x xs ih =>
    rw [List.takeWhile_cons, h x (List.mem_cons_self x xs)]
    exact congrArg (x :: ·) (ih fun y hy => h y (List.mem_cons_of_mem x hy))

/-- Lists all of whose elements satisfy `p` have empty `dropWhile`. -/
theorem dropWhile_all (p : List Char → Bool) (xs : List (List Char))
    (h : ∀ x ∈ xs, p x = true) : xs.dropWhile p = [] := by
  induction xs with
  | nil => rfl
  | cons x xs ih =>
    rw [List.dropWhile_cons, h x (List.mem_cons_self x xs)]
    simpa using ih fun y hy => h y (List.mem_cons_of_mem x hy)

/-- Claim C7 (amended): a non-empty run of lines each satisfying the
code's blockquote test — starting with `"> "` or equal to `">"` — is
consumed as one block: each line is stripped of its marker (and one
following space), the stripped lines are rejoined and recursively
rendered, and the result is wrapped in `<blockquote>`. -/
theorem blockquote_run_renders (fuel : Nat) (ls : List (List Char)) (hne : ls ≠ [])
    (hall : ∀ l ∈ ls, bqLine l = true ∧ chNl ∉ l) :
    markdownToHTML (fuel + 1) (joinNl ls) =
      (markdownToHTML fuel (bqJoin ls)).map
        (fun inner => ("<blockquote>\n").data ++ inner ++ ("</blockquote>\n").data) := by
  obtain ⟨l, rest, rfl⟩ : ∃ l rest, ls = l :: rest := by
    cases ls with
    | nil => exact absurd rfl hne
    | cons l rest => exact ⟨l, rest, rfl⟩
  have hsplit : splitNlGo (joinNl (l :: rest)) = l :: rest :=
    splitNlGo_joinNl _ hne (fun x hx => (hall x hx).2)
  have hbq : ∀ x ∈ l :: rest, bqLine x = true := fun x hx => (hall x hx).1
  have hl := hbq l (List.mem_cons_self l rest)
  have hfence := bqLine_not_fence l hl
  have htake : (l :: rest).takeWhile bqLine = l :: rest := takeWhile_all _ _ hbq
  have hdrop : (l :: rest).dropWhile bqLine = [] := dropWhile_all _ _ hbq
  have hnil : mdLoop fuel [] = some [] := by cases fuel <;> rfl
  simp only [markdownToHTML, hsplit, mdLoop, hfence, Bool.false_eq_true, if_false,
    hl, if_true, htake, hdrop, hnil]
  cases hx : mdLoop fuel (splitNlGo (bqJoin (l :: rest))) <;> simp [hx]

/-- Witness for `blockquote_run_renders` at the single-line run `">"`
with fuel `0`. -/
theorem blockquote_run_renders_witness :
    markdownToHTML 1 (joinNl [((">").data)]) =
      (markdownToHTML 0 (bqJoin [((">").data)])).map
        (fun inner => ("<blockquote>\n").data ++ inner ++ ("</blockquote>\n").data) :=
  blockquote_run_renders 0 [((">").data)] (by simp) (by decide)

/-- Appending on the right preserves `isPrefixOf`. -/
theorem isPrefixOf_append_left (pat a b : List Char) (h : pat.isPrefixOf a = true) :
    pat.isPrefixOf (a ++ b) = true := by
  rw [ List.isPrefixOf_iff_prefix] at h ⊢
  exact h.trans (List.prefix_append a b)

/-- A prefix is no longer than the list. -/
theorem isPrefixOf_length_le (pat a : List Char) (h : pat.isPrefixOf a = true) :
    pat.length ≤ a.length :=
  ( List.isPrefixOf_iff_prefix.mp h).length_le

/-- A prefix of `a ++ b` that fits inside `a` is a prefix of `a`. -/
theorem isPrefixOf_of_append (pat a b : List Char)
    (h : pat.isPrefixOf (a ++ b) = true) (hlen : pat.length ≤ a.length) :
    pat.isPrefixOf a = true := by
  rw [ List.isPrefixOf_iff_prefix] at h ⊢
  have heq := List.prefix_iff_eq_take.mp h
  rw [List.take_append_eq_append_take, Nat.sub_eq_zero_of_le hlen, List.take_zero,
    List.append_nil] at heq
  rw [heq]
  exact List.take_prefix _ _

/-- The scanner index is a pure offset. -/
theorem strIndexAux_shift (pat s : List Char) (i : Nat) :
    strIndexAux pat i s = (strIndexAux pat 0 s).map (fun q => q + i) := by
  induction s generalizing i with
  | nil => by_cases h : pat.isPrefixOf [] <;> simp [strIndexAux, h]
  | cons c t ih =>
    by_cases h : pat.isPrefixOf (c :: t)
    · simp [strIndexAux, h]
    · simp only [strIndexAux, h, Bool.false_eq_true, if_false]
      rw [ih (i + 1), ih 1, Option.map_map]
      cases strIndexAux pat 0 t with
      | none => rfl
      | some q => simp; omega

/-- A found occurrence fits inside the list. -/
theorem strIndex_some_le (pat a : List Char) (p : Nat) (h : strIndex pat a = some p) :
    p + pat.length ≤ a.length := by
  induction a generalizing p with
  | nil =>
    by_cases hp : pat.isPrefixOf []
    · simp only [strIndex, strIndexAux, hp, if_true, Option.some.injEq] at h
      have hlen := isPrefixOf_length_le pat [] hp
      simp only [List.length_nil, Nat.le_zero] at hlen
      simp only [List.length_nil]
      omega
    · simp [strIndex, strIndexAux, hp] at h
  | cons c t ih =>
    by_cases hp : pat.isPrefixOf (c :: t)
    · simp only [strIndex, strIndexAux, hp, if_true, Option.some.injEq] at h
      have := isPrefixOf_length_le pat (c :: t) hp
      omega
    · simp only [strIndex, strIndexAux, hp, Bool.false_eq_true, if_false] at h
      rw [strIndexAux_shift] at h
      cases hq : strIndexAux pat 0 t with
      | none => rw [hq] at h; simp at h
      | some q =>
        rw [hq] at h
        simp at h
        have := ih q hq
        simp only [List.length_cons]
        omega

/-- The first occurrence inside `a` is also the first occurrence in
`a ++ b`. -/
theorem strIndex_append (pat a b : List Char) (p : Nat) (h : strIndex pat a = some p) :
    strIndex pat (a ++ b) = some p := by
  induction a generalizing p with
  | nil =>
    by_cases hp : pat.isPrefixOf []
    · simp only [strIndex, strIndexAux, hp, if_true, Option.some.injEq] at h
      have hnil : pat = [] := List.prefix_nil.mp ( List.isPrefixOf_iff_prefix.mp hp)
      subst hnil
      have hb : strIndex ([] : List Char) ([] ++ b) = some 0 := by
        cases b <;> simp [strIndex, strIndexAux, List.isPrefixOf]
      rw [hb, ← h]
    · simp [strIndex, strIndexAux, hp] at h
  | cons c t ih =>
    have hfit := strIndex_some_le pat (c :: t) p h
    rw [List.cons_append]
    by_cases hp : pat.isPrefixOf (c :: t)
    · simp only [strIndex, strIndexAux, hp, if_true, Option.some.injEq] at h
      have hp2 : pat.isPrefixOf (c :: (t ++ b)) = true := by
        have := isPrefixOf_append_left pat (c :: t) b hp
        rwa [List.cons_append] at this
      simp only [strIndex, strIndexAux, hp2, if_true, Option.some.injEq]
      omega
    · simp only [strIndex, strIndexAux, hp, Bool.false_eq_true, if_false] at h
      rw [strIndexAux_shift] at h
      cases hq : strIndexAux pat 0 t with
      | none => rw [hq] at h; simp at h
      | some q =>
        rw [hq] at h
        simp at h
        have hp2 : ¬ pat.isPrefixOf (c :: (t ++ b)) = true := by
          intro hcontra
          have hlen : pat.length ≤ (c :: t).length := by
            simp only [List.length_cons] at hfit ⊢
            omega
          have := isPrefixOf_of_append pat (c :: t) b (by rwa [List.cons_append]) hlen
          exact hp this
        simp only [strIndex, strIndexAux, hp2, Bool.false_eq_true, if_false]
        rw [strIndexAux_shift]
        have hib : strIndexAux pat 0 (t ++ b) = some q := ih q hq
        rw [hib]
        simp
        omega

/-- The last occurrence in `b` shifted by `|a|` is the last occurrence of
`a ++ b` (any occurrence starting in `a` lies earlier). -/
theorem strLastIndex_append (pat b : List Char) (q : Nat)
    (h : strLastIndex pat b = some q) (a : List Char) :
    strLastIndex pat (a ++ b) = some (a.length + q) := by
  induction a with
  | nil => simpa using h
  | cons c a ih =>
    rw [List.cons_append, strLastIndex, ih]
    simp only [List.length_cons, Option.some.injEq]
    omega

/-- First `<body` of the lowered document head, at the opening tag. -/
theorem docHead_body_index :
    strIndex (("<body").data) (docHead.map toLowerChar) = some 1209 := by rfl

/-- Length of the document head. -/
theorem docHead_length : docHead.length = 1216 := by rfl

/-- The document head from the opening tag on. -/
theorem docHead_drop_1209 : docHead.drop 1209 = ("<body>\n").data :=
  eq_of_beq (by rfl)

/-- The `>` of the opening tag is five characters in. -/
theorem bodyTag_gt_index : strIndex ((">").data) (("<body>\n").data) = some 5 := by rfl

/-- Last `</body>` of the lowered document tail, at index 1. -/
theorem docTail_close_index :
    strLastIndex (("</body>").data) (docTail.map toLowerChar) = some 1 := by rfl

/-- The last character of the document head is the newline after
`<body>`. -/
theorem docHead_drop_1215 : docHead.drop 1215 = [chNl] := eq_of_beq (by rfl)

/-- The first character of the document tail is the newline before
`</body>`. -/
theorem docTail_take_1 : docTail.take 1 = [chNl] := by rfl

/-- Length of the document tail. -/
theorem docTail_length : docTail.length = 16 := by rfl

/-- Claim C1 (amended): extracting the body content of a wrapped fragment
returns the fragment with one added leading and one added trailing
newline — the newlines the wrapper places around the fragment inside
`<body>…</body>`. -/
theorem extract_wrap_adds_newlines (f : List Char) :
    ExtractBodyContent (wrapEmailHTML f) = some (chNl :: (f ++ [chNl])) := by
  have hmap : ((docHead ++ f) ++ docTail).map toLowerChar =
      (docHead.map toLowerChar ++ f.map toLowerChar) ++ docTail.map toLowerChar := by
    simp [List.map_append]
  have hstart : strIndex (("<body").data) (((docHead ++ f) ++ docTail).map toLowerChar)
      = some 1209 := by
    rw [hmap]
    exact strIndex_append _ _ _ _ (strIndex_append _ _ _ _ docHead_body_index)
  have hdrop : ((docHead ++ f) ++ docTail).drop 1209 =
      ("<body>\n").data ++ (f ++ docTail) := by
    rw [List.append_assoc, List.drop_append_eq_append_drop, docHead_length, docHead_drop_1209]
    norm_num
  have hgt : strIndex ((">").data) (((docHead ++ f) ++ docTail).drop 1209) = some 5 := by
    rw [hdrop]
    exact strIndex_append _ _ _ _ bodyTag_gt_index
  have hflen : (docHead.map toLowerChar ++ f.map toLowerChar).length = 1216 + f.length := by
    simp [docHead_length]
  have hclose : strLastIndex (("</body>").data) (((docHead ++ f) ++ docTail).map toLowerChar)
      = some (1216 + f.length + 1) := by
    rw [hmap]
    have h2 := strLastIndex_append _ _ _ docTail_close_index
      (docHead.map toLowerChar ++ f.map toLowerChar)
    rwa [hflen] at h2
  have hslen : ((docHead ++ f) ++ docTail).length = 1232 + f.length := by
    simp [docHead_length, docTail_length]
    omega
  have htake : ((docHead ++ f) ++ docTail).take (1216 + f.length + 1) =
      (docHead ++ f) ++ [chNl] := by
    rw [List.take_append_eq_append_take]
    have h1 : (docHead ++ f).take (1216 + f.length + 1) = docHead ++ f :=
      List.take_of_length_le (by simp [docHead_length])
    have h2 : 1216 + f.length + 1 - (docHead ++ f).length = 1 := by
      simp [docHead_length]
    rw [h1, h2, docTail_take_1]
  have hdrop2 : ((docHead ++ f) ++ [chNl]).drop 1215 = chNl :: (f ++ [chNl]) := by
    rw [List.append_assoc, List.drop_append_eq_append_drop, docHead_length, docHead_drop_1215]
    norm_num
  show ExtractBodyContent ((docHead ++ f) ++ docTail) = _
  simp only [ExtractBodyContent, hstart, hgt, hclose, goSlice, hslen]
  rw [if_pos (by omega)]
  have harith : (1209 + 5 + 1 : Nat) = 1215 := by norm_num
  rw [harith, htake, hdrop2]
